import Mathlib

/-!
Verification development for the retrieval fusion engine of the
food-recipe-ideator backend (`src/backend/src/query_engine/`).

The Python modules `fusion.py`, `pg_query.py`, `kg_query.py` and
`intent_parser.py` are shallowly embedded below: dataclasses become
structures, Python `None` becomes `Option`, Python `float` scores become
`ℚ` (the algorithms only use exact decimal constants), Python truthiness
tests become explicit helpers, exception propagation becomes `Except`,
and the insertion-ordered `dict[int, FusedRecipeResult]` merge map
becomes an id-keyed list.  The external collaborators (Postgres, Neo4j,
the OpenAI embedding endpoint) are parameters of the embedded `search`.
-/

namespace RecipeIdeator

/-- Python truthiness of an `Option String` (`None` and `""` are falsy),
as used by `if intent.cuisine:` etc. -/
def optStrTruthy : Option String → Bool
  | none => false
  | some s => s != ""

/-- Python truthiness of an `Option Int` (`None` and `0` are falsy),
as used by `if intent.max_prep_time_mins:` etc. -/
def optIntTruthy : Option Int → Bool
  | none => false
  | some n => n != 0

/-- Python truthiness of an `Option (List String)` (`None` and `[]` are falsy),
as used by `if intent.ingredients_include:`. -/
def optListTruthy : Option (List String) → Bool
  | none => false
  | some l => !l.isEmpty

/-- Embeds the `ParsedIntent` dataclass of `intent_parser.py`. -/
structure ParsedIntent where
  cuisine : Option String := none
  diet : Option String := none
  course : Option String := none
  max_prep_time_mins : Option Int := none
  max_cook_time_mins : Option Int := none
  ingredients_include : Option (List String) := none
  ingredients_exclude : Option (List String) := none
  semantic_query : Option String := none
  use_kg : Bool := false
  use_sql : Bool := false
  use_vector : Bool := false
  reasoning : Option String := none
deriving Repr, DecidableEq

/-- Embeds the `KGRecipeResult` dataclass of `kg_query.py`. -/
structure KGRecipeResult where
  id : Int
  title : String
  rating : ℚ
  prep_time_mins : Option Int
  cook_time_mins : Option Int
  score : ℚ := 1.0
deriving Repr, DecidableEq

/-- Embeds the `PGRecipeResult` dataclass of `pg_query.py`. -/
structure PGRecipeResult where
  id : Int
  title : String
  description : String
  url : String
  cuisine : Option String
  course : Option String
  diet : Option String
  prep_time_mins : Option Int
  cook_time_mins : Option Int
  rating : ℚ
  vote_count : Int
  ingredients : List String
  distance : Option ℚ := none
  source : String := "sql"
deriving Repr, DecidableEq

/-- Embeds the `FusedRecipeResult` dataclass of `fusion.py`. -/
structure FusedRecipeResult where
  id : Int
  title : String
  description : String
  url : String
  cuisine : Option String
  course : Option String
  diet : Option String
  prep_time_mins : Option Int
  cook_time_mins : Option Int
  rating : ℚ
  vote_count : Int
  ingredients : List String
  final_score : ℚ
  sources : List String := []
  image_url : Option String := none
deriving Repr, DecidableEq

/-- Embeds the vector-score computation of `_fuse_results`
(`fusion.py` lines 167–171): `1.0 / (1.0 + distance)` when a distance is
present, else the neutral `0.5`. -/
def vector_score (r : PGRecipeResult) : ℚ :=
  match r.distance with
  | some d => 1.0 / (1.0 + d)
  | none => 0.5

/-- Embeds the rating-score computation of `_fuse_results`
(`fusion.py` line 174): `rating / 5.0 if rating else 0.5`
(Python float truthiness: `0.0` is falsy). -/
def rating_score (rating : ℚ) : ℚ :=
  if rating ≠ 0 then rating / 5.0 else 0.5

/-- Embeds the construction of a `FusedRecipeResult` from one
PostgreSQL row in `_fuse_results` (`fusion.py` lines 165–192),
including `final_score = 0.6 * vector_score + 0.4 * rating_score`. -/
def pgToFused (r : PGRecipeResult) : FusedRecipeResult :=
  { id := r.id
    title := r.title
    description := r.description
    url := r.url
    cuisine := r.cuisine
    course := r.course
    diet := r.diet
    prep_time_mins := r.prep_time_mins
    cook_time_mins := r.cook_time_mins
    rating := r.rating
    vote_count := r.vote_count
    ingredients := r.ingredients
    final_score := 0.6 * vector_score r + 0.4 * rating_score r.rating
    sources := [r.source] }

/-- Embeds the cross-source boost of `_fuse_results`
(`fusion.py` lines 196–201): `existing.final_score *= 1.2` and append
`"kg"` to `existing.sources` if not already present. -/
def boostKG (x : FusedRecipeResult) : FusedRecipeResult :=
  { x with
    final_score := x.final_score * 1.2
    sources := if "kg" ∈ x.sources then x.sources else x.sources ++ ["kg"] }

/-- Embeds the construction of a `FusedRecipeResult` from a graph-only
hit hydrated through `get_recipe_by_id` (`fusion.py` lines 202–222):
descriptive fields come from the full record, the score is
`rating_score` of the *graph* result's rating, and `sources = ["kg"]`. -/
def kgToFused (k : KGRecipeResult) (full : PGRecipeResult) : FusedRecipeResult :=
  { id := full.id
    title := full.title
    description := full.description
    url := full.url
    cuisine := full.cuisine
    course := full.course
    diet := full.diet
    prep_time_mins := full.prep_time_mins
    cook_time_mins := full.cook_time_mins
    rating := full.rating
    vote_count := full.vote_count
    ingredients := full.ingredients
    final_score := rating_score k.rating
    sources := ["kg"] }

/-- `kg_result.id in results_by_id` on the id-keyed merge map. -/
def hasId (m : List FusedRecipeResult) (i : Int) : Bool :=
  m.any (fun x => x.id == i)

/-- `results_by_id.find(i)` on the id-keyed merge map. -/
def lookupId (m : List FusedRecipeResult) (i : Int) : Option FusedRecipeResult :=
  m.find? (fun x => x.id == i)

/-- Embeds `results_by_id[pg_result.id] = FusedRecipeResult(...)`
(`fusion.py` line 177): a Python dict assignment replaces the value in
place when the key exists and appends at the end otherwise. -/
def upsertPG (m : List FusedRecipeResult) (r : PGRecipeResult) : List FusedRecipeResult :=
  if hasId m r.id then m.map (fun x => if x.id == r.id then pgToFused r else x)
  else m ++ [pgToFused r]

/-- Embeds one iteration of the KG loop of `_fuse_results`
(`fusion.py` lines 195–222): boost an existing entry in place, or
hydrate the graph hit through `getById` and append it, or silently drop
it when `getById` returns `None`. -/
def applyKG (getById : Int → Option PGRecipeResult)
    (m : List FusedRecipeResult) (k : KGRecipeResult) : List FusedRecipeResult :=
  if hasId m k.id then m.map (fun x => if x.id == k.id then boostKG x else x)
  else
    match getById k.id with
    | some full => m ++ [kgToFused k full]
    | none => m

/-- The insertion-ordered merge map `results_by_id` of `_fuse_results`
after both loops (`fusion.py` lines 162–222). -/
def fuseMap (getById : Int → Option PGRecipeResult)
    (kg_results : List KGRecipeResult) (pg_results : List PGRecipeResult) :
    List FusedRecipeResult :=
  kg_results.foldl (applyKG getById) (pg_results.foldl upsertPG [])

/-- Stable descending insertion by `final_score`: the inserted element
goes before the first element whose score is `≤` its own, so an element
earlier in the original order precedes equal-scored later elements. -/
def insertScoreDesc (r : FusedRecipeResult) :
    List FusedRecipeResult → List FusedRecipeResult
  | [] => [r]
  | x :: xs =>
    if x.final_score ≤ r.final_score then r :: x :: xs
    else x :: insertScoreDesc r xs

/-- Embeds `sorted(results_by_id.values(), key=lambda x: x.final_score,
reverse=True)` (`fusion.py` lines 225–227).  Python's `sorted` is a
stable sort; a stable descending sort by one key is unique, and this
insertion sort computes it. -/
def sortByScoreDesc (l : List FusedRecipeResult) : List FusedRecipeResult :=
  l.foldr insertScoreDesc []

/-- Embeds `_fuse_results` (`fusion.py` lines 154–229): build the merge
map, sort by `final_score` descending (stable), truncate to `limit`. -/
def fuseResults (getById : Int → Option PGRecipeResult)
    (kg_results : List KGRecipeResult) (pg_results : List PGRecipeResult)
    (limit : Nat) : List FusedRecipeResult :=
  (sortByScoreDesc (fuseMap getById kg_results pg_results)).take limit

/-- Per-tag occurrence count over the truncated result list: embeds the
inner loop of the source-breakdown computation (`fusion.py` lines
134–138), which increments once per occurrence of a known tag. -/
def countTag (results : List FusedRecipeResult) (tag : String) : Nat :=
  (results.map (fun r => r.sources.count tag)).sum

/-- Embeds the `source_breakdown` dict of `search` (`fusion.py` lines
134–138): fixed keys `"kg"`, `"sql"`, `"vector"`, `"sql+vector"`; tags
outside this key set are ignored by the Python loop and never counted. -/
def sourceBreakdown (results : List FusedRecipeResult) : List (String × Nat) :=
  [("kg", countTag results "kg"),
   ("sql", countTag results "sql"),
   ("vector", countTag results "vector"),
   ("sql+vector", countTag results "sql+vector")]

/-- The Knowledge-Graph routing predicate of `search`
(`fusion.py` line 114): `if intent.use_kg or intent.ingredients_include:`. -/
def kgInvoked (intent : ParsedIntent) : Bool :=
  intent.use_kg || optListTruthy intent.ingredients_include

/-- Which of the three PostgreSQL query shapes `search` dispatches to. -/
inductive PGRoute
  | hybrid
  | vector
  | sql
deriving Repr, DecidableEq

/-- Embeds the PostgreSQL routing chain of `search` (`fusion.py` lines
118–128): hybrid when both flags are set, vector when `use_vector` and a
truthy semantic query, SQL when `use_sql`, hybrid as the default.
Being a total function into the three shapes, exactly one PostgreSQL
query is dispatched on every search. -/
def pgRoute (intent : ParsedIntent) : PGRoute :=
  if intent.use_sql && intent.use_vector then .hybrid
  else if intent.use_vector && optStrTruthy intent.semantic_query then .vector
  else if intent.use_sql then .sql
  else .hybrid

/-- The external collaborators of `RecipeSearchEngine.search`: the two
retrievers' fallible calls (`Except ε` models Python exception
propagation) and the by-id hydration lookup (`None` models the
not-found row of `get_recipe_by_id`). -/
structure Retrievers (ε : Type) where
  kgSearch : ParsedIntent → Nat → Except ε (List KGRecipeResult)
  searchHybrid : ParsedIntent → Nat → Except ε (List PGRecipeResult)
  searchVector : String → Nat → Except ε (List PGRecipeResult)
  searchSql : ParsedIntent → Nat → Except ε (List PGRecipeResult)
  getById : Int → Option PGRecipeResult

/-- Embeds the `SearchResponse` dataclass of `fusion.py` (the
`thinking` metadata — free-text reasoning and routing-explanation
strings — is presentation-only and carried by no claim, so it is left
out of the embedding). -/
structure SearchResponse where
  query : String
  parsed_intent : ParsedIntent
  results : List FusedRecipeResult
  source_breakdown : List (String × Nat)
deriving Repr, DecidableEq

/-- Embeds `RecipeSearchEngine.search` (`fusion.py` lines 104–152).
The parsed intent is supplied by the external LLM intent extractor, so
it is a parameter here.  Each retrieval call is `Except`-bound exactly
where the Python call sits, so an exception raised by a collaborator
propagates out of `search` precisely when it does in the source (there
is no `try`/`except` in the Python function). -/
def search {ε : Type} (R : Retrievers ε) (query : String)
    (intent : ParsedIntent) (limit : Nat) : Except ε SearchResponse :=
  match (if kgInvoked intent then R.kgSearch intent (limit * 2) else .ok []) with
  | .error e => .error e
  | .ok kg_results =>
    match (match pgRoute intent with
           | .hybrid => R.searchHybrid intent (limit * 2)
           | .vector => R.searchVector (intent.semantic_query.getD "") (limit * 2)
           | .sql => R.searchSql intent (limit * 2)) with
    | .error e => .error e
    | .ok pg_results =>
      let fused := fuseResults R.getById kg_results pg_results limit
      .ok { query := query
            parsed_intent := intent
            results := fused
            source_breakdown := sourceBreakdown fused }

/-- A SQL query parameter of `pg_query.py` (the `params` lists hold
strings and integers). -/
inductive SqlParam
  | str (v : String)
  | int (v : Int)
deriving Repr, DecidableEq

/-- The per-ingredient existence predicate string of `search_sql` /
`search_hybrid` (`pg_query.py` lines 126–128 and 197–199). -/
def ingredientCond (idx : Nat) : String :=
  "EXISTS (SELECT 1 FROM unnest(ingredients) AS ing_" ++ toString idx ++
    " WHERE ing_" ++ toString idx ++ " ILIKE %s)"

/-- Embeds the `conditions`/`params` builder of `search_sql`
(`pg_query.py` lines 100–129), as the list of (predicate, parameter)
pairs in construction order; every Python branch appends one predicate
and one parameter.  `if intent.max_prep_time_mins:` is a truthiness
test, so `None` and `0` both skip the predicate. -/
def searchSqlConditions (intent : ParsedIntent) : List (String × SqlParam) :=
  (match intent.cuisine with
   | some s => if s != "" then [("cuisine = %s", SqlParam.str s)] else []
   | none => []) ++
  (match intent.diet with
   | some s => if s != "" then [("diet = %s", SqlParam.str s)] else []
   | none => []) ++
  (match intent.course with
   | some s => if s != "" then [("course = %s", SqlParam.str s)] else []
   | none => []) ++
  (match intent.max_prep_time_mins with
   | some n => if n != 0 then [("prep_time_mins <= %s", SqlParam.int n)] else []
   | none => []) ++
  (match intent.max_cook_time_mins with
   | some n => if n != 0 then [("cook_time_mins <= %s", SqlParam.int n)] else []
   | none => []) ++
  (match intent.ingredients_include with
   | some l =>
     if !l.isEmpty then
       l.enum.map (fun p => (ingredientCond p.1, SqlParam.str ("%" ++ p.2 ++ "%")))
     else []
   | none => [])

/-- Embeds the `conditions`/`params` builder of `search_hybrid`
(`pg_query.py` lines 171–200); its construction is textually identical
to the one in `search_sql`. -/
def searchHybridConditions (intent : ParsedIntent) : List (String × SqlParam) :=
  (match intent.cuisine with
   | some s => if s != "" then [("cuisine = %s", SqlParam.str s)] else []
   | none => []) ++
  (match intent.diet with
   | some s => if s != "" then [("diet = %s", SqlParam.str s)] else []
   | none => []) ++
  (match intent.course with
   | some s => if s != "" then [("course = %s", SqlParam.str s)] else []
   | none => []) ++
  (match intent.max_prep_time_mins with
   | some n => if n != 0 then [("prep_time_mins <= %s", SqlParam.int n)] else []
   | none => []) ++
  (match intent.max_cook_time_mins with
   | some n => if n != 0 then [("cook_time_mins <= %s", SqlParam.int n)] else []
   | none => []) ++
  (match intent.ingredients_include with
   | some l =>
     if !l.isEmpty then
       l.enum.map (fun p => (ingredientCond p.1, SqlParam.str ("%" ++ p.2 ++ "%")))
     else []
   | none => [])

/-- Embeds the `where_clauses` (post-match time predicates) and their
parameter values built by `KnowledgeGraphQuery.search`
(`kg_query.py` lines 60–67), as (clause, parameter) pairs.  Like the
SQL builders, `if intent.max_prep_time_mins:` is a truthiness test. -/
def kgWhereClauses (intent : ParsedIntent) : List (String × Int) :=
  (match intent.max_prep_time_mins with
   | some n => if n != 0 then [("r.prep_time_mins <= $max_prep_time", n)] else []
   | none => []) ++
  (match intent.max_cook_time_mins with
   | some n => if n != 0 then [("r.cook_time_mins <= $max_cook_time", n)] else []
   | none => [])

/-- The three PostgreSQL provenance tags (`pg_query.py`: `search_sql`
tags rows `"sql"`, `search_vector` tags `"vector"`, `search_hybrid`
tags `"sql+vector"`). -/
def storeTags : List String := ["sql", "vector", "sql+vector"]

/-- A fused entry whose provenance begins with a PostgreSQL tag, i.e.
one inserted by the PostgreSQL loop of `_fuse_results`. -/
def storeOrigin (x : FusedRecipeResult) : Prop :=
  ∃ s ∈ storeTags, x.sources.head? = some s

/-- A fused entry carrying only graph provenance, i.e. one inserted by
the KG loop of `_fuse_results` for a graph-only hit. -/
def graphOnly (x : FusedRecipeResult) : Prop :=
  x.sources = ["kg"]

instance : DecidablePred storeOrigin := fun x =>
  inferInstanceAs (Decidable (∃ s ∈ storeTags, x.sources.head? = some s))

instance : DecidablePred graphOnly := fun x =>
  inferInstanceAs (Decidable (x.sources = ["kg"]))

/-- The provenance shapes a fused entry can carry: a single PostgreSQL
tag, a PostgreSQL tag with the graph tag appended once, or the graph
tag alone. -/
def goodSources (x : FusedRecipeResult) : Prop :=
  (∃ s ∈ storeTags, x.sources = [s]) ∨
  (∃ s ∈ storeTags, x.sources = [s, "kg"]) ∨
  x.sources = ["kg"]

/-- The structural invariant of the merge map: a prefix of store-origin
entries (inserted by the PostgreSQL loop) followed by a suffix of
graph-only entries (appended by the KG loop). -/
def SplitSG (m : List FusedRecipeResult) : Prop :=
  ∃ mS mG, m = mS ++ mG ∧ (∀ x ∈ mS, storeOrigin x) ∧ (∀ x ∈ mG, graphOnly x)

/-- Relation holding on the merge map before sorting: no graph-only
entry precedes a store-origin entry. -/
def noGraphBeforeStore (x y : FusedRecipeResult) : Prop :=
  ¬(graphOnly x ∧ storeOrigin y)

/-- Relation holding on the sorted output: a graph-only entry strictly
before a store-origin entry never ties with it on `final_score` (on an
exact tie the store-origin entry, inserted earlier, comes first). -/
def tieSeparated (x y : FusedRecipeResult) : Prop :=
  graphOnly x → storeOrigin y → x.final_score ≠ y.final_score

/-! ### Concrete fixtures used by scenario theorems and witnesses -/

/-- The store row of the spec scenario: id 7, distance 0.2, rating 4.0,
returned by the hybrid path (`sourceTag = "sql+vector"`). -/
def storeRow7 : PGRecipeResult :=
  { id := 7
    title := "Paneer Tikka Masala"
    description := "Spicy vegetarian curry"
    url := "https://recipes.example/7"
    cuisine := some "Indian"
    course := some "Dinner"
    diet := some "Vegetarian"
    prep_time_mins := some 20
    cook_time_mins := some 30
    rating := 4.0
    vote_count := 120
    ingredients := ["paneer", "tomato"]
    distance := some 0.2
    source := "sql+vector" }

/-- A graph hit sharing the id of the scenario store row. -/
def kgRow7 : KGRecipeResult :=
  { id := 7
    title := "Paneer Tikka Masala"
    rating := 4.0
    prep_time_mins := some 20
    cook_time_mins := some 30 }

/-- A graph hit whose id matches no store row. -/
def kgRow9 : KGRecipeResult :=
  { id := 9
    title := "Dangling Curry"
    rating := 4.5
    prep_time_mins := some 10
    cook_time_mins := some 25 }

/-- A store row for id 9, used when hydration should succeed. -/
def storeRow9 : PGRecipeResult :=
  { id := 9
    title := "Dangling Curry"
    description := ""
    url := ""
    cuisine := none
    course := none
    diet := some "Vegetarian"
    prep_time_mins := some 10
    cook_time_mins := some 25
    rating := 0
    vote_count := 3
    ingredients := ["lentils"]
    distance := none
    source := "sql" }

/-- A store row with no distance and no rating: both score components
fall back to the neutral `0.5`, giving `final_score = 0.5`. -/
def storeRow5 : PGRecipeResult :=
  { id := 5
    title := "Plain Rice"
    description := ""
    url := ""
    cuisine := none
    course := none
    diet := none
    prep_time_mins := some 5
    cook_time_mins := some 15
    rating := 0
    vote_count := 0
    ingredients := ["rice"]
    distance := none
    source := "sql" }

/-- A graph hit for id 9 with rating 0: hydrated through `storeRow9` it
gets `final_score = rating_score 0 = 0.5`, tying with `storeRow5`. -/
def kgRow9Unrated : KGRecipeResult :=
  { id := 9
    title := "Dangling Curry"
    rating := 0
    prep_time_mins := some 10
    cook_time_mins := some 25 }

/-- A by-id hydration lookup with no stored rows at all. -/
def noById : Int → Option PGRecipeResult := fun _ => none

/-- A by-id hydration lookup holding exactly the id-9 row. -/
def byIdRow9 : Int → Option PGRecipeResult := fun i =>
  if i == 9 then some storeRow9 else none

/-- The retrieval-unavailable failure of a backing store. -/
inductive RetrievalError
  | unavailable
deriving Repr, DecidableEq

/-- Collaborators whose Knowledge-Graph search raises while the
PostgreSQL hybrid search succeeds with the scenario row. -/
def kgFailingRetrievers : Retrievers RetrievalError :=
  { kgSearch := fun _ _ => .error .unavailable
    searchHybrid := fun _ _ => .ok [storeRow7]
    searchVector := fun _ _ => .ok []
    searchSql := fun _ _ => .ok []
    getById := fun _ => none }

/-- Collaborators that all succeed: the KG search returns the two graph
hits, the hybrid search returns the scenario row, and hydration knows
the id-9 row. -/
def okRetrievers : Retrievers RetrievalError :=
  { kgSearch := fun _ _ => .ok [kgRow7, kgRow9]
    searchHybrid := fun _ _ => .ok [storeRow7]
    searchVector := fun _ _ => .ok []
    searchSql := fun _ _ => .ok []
    getById := byIdRow9 }

/-- An intent that routes to both the Knowledge Graph and the hybrid
store path. -/
def kgHybridIntent : ParsedIntent :=
  { cuisine := some "Indian"
    diet := some "Vegetarian"
    semantic_query := some "spicy curry"
    use_kg := true
    use_sql := true
    use_vector := true }

/-- An intent setting no flags, no semantic query and no ingredients. -/
def emptyIntent : ParsedIntent := {}

/-- An intent with an ingredient allow-list but `use_kg = false`. -/
def paneerIntent : ParsedIntent :=
  { ingredients_include := some ["paneer"], use_kg := false }

/-- An intent with both time ceilings set to 0. -/
def zeroCeilingIntent : ParsedIntent :=
  { cuisine := some "Indian"
    max_prep_time_mins := some 0
    max_cook_time_mins := some 0 }

/-- The response produced by `search` over `okRetrievers` for the
scenario intent. -/
def okResp : SearchResponse :=
  { query := "spicy curry"
    parsed_intent := kgHybridIntent
    results := fuseResults byIdRow9 [kgRow7, kgRow9] [storeRow7] 10
    source_breakdown :=
      sourceBreakdown (fuseResults byIdRow9 [kgRow7, kgRow9] [storeRow7] 10) }

/-! ### Merge-map lemmas shared by the fusion theorems -/

theorem hasId_true_iff (m : List FusedRecipeResult) (i : Int) :
    hasId m i = true ↔ ∃ x ∈ m, x.id = i := by
  simp [hasId]

theorem hasId_false_iff (m : List FusedRecipeResult) (i : Int) :
    hasId m i = false ↔ i ∉ m.map (·.id) := by
  rw [← Bool.not_eq_true, hasId_true_iff]
  simp [eq_comm]

theorem lookupId_eq_none (m : List FusedRecipeResult) (i : Int)
    (h : hasId m i = false) : lookupId m i = none := by
  unfold lookupId
  rw [List.find?_eq_none]
  intro x hx
  simp only [hasId, List.any_eq_false] at h
  exact h x hx

theorem lookupId_mem {m : List FusedRecipeResult} {i : Int} {x : FusedRecipeResult}
    (h : lookupId m i = some x) : x ∈ m :=
  List.mem_of_find?_eq_some h

theorem lookupId_isSome_of_hasId {m : List FusedRecipeResult} {i : Int}
    (h : hasId m i = true) : ∃ e, lookupId m i = some e := by
  have := List.find?_isSome.mpr (by simpa [hasId, List.any_eq_true] using h :
    ∃ x, x ∈ m ∧ (x.id == i) = true)
  exact Option.isSome_iff_exists.mp this

theorem lookupId_cons_pos (x : FusedRecipeResult) (t : List FusedRecipeResult)
    (i : Int) (hx : (x.id == i) = true) : lookupId (x :: t) i = some x := by
  simp [lookupId, List.find?_cons, hx]

theorem lookupId_cons_neg (x : FusedRecipeResult) (t : List FusedRecipeResult)
    (i : Int) (hx : (x.id == i) = false) : lookupId (x :: t) i = lookupId t i := by
  simp [lookupId, List.find?_cons, hx]

theorem lookupId_append_of_none (m₁ m₂ : List FusedRecipeResult) (i : Int)
    (h : lookupId m₁ i = none) : lookupId (m₁ ++ m₂) i = lookupId m₂ i := by
  induction m₁ with
  | nil => rfl
  | cons x t ih =>
    by_cases hx : (x.id == i) = true
    · rw [lookupId_cons_pos x t i hx] at h
      cases h
    · rw [lookupId_cons_neg x t i (by simpa using hx)] at h
      rw [List.cons_append, lookupId_cons_neg x (t ++ m₂) i (by simpa using hx)]
      exact ih h

theorem lookupId_append_of_some (m₁ m₂ : List FusedRecipeResult) (i : Int)
    (e : FusedRecipeResult) (h : lookupId m₁ i = some e) :
    lookupId (m₁ ++ m₂) i = some e := by
  induction m₁ with
  | nil => cases h
  | cons x t ih =>
    by_cases hx : (x.id == i) = true
    · rw [lookupId_cons_pos x t i hx] at h
      rw [List.cons_append, lookupId_cons_pos x (t ++ m₂) i hx]
      exact h
    · rw [lookupId_cons_neg x t i (by simpa using hx)] at h
      rw [List.cons_append, lookupId_cons_neg x (t ++ m₂) i (by simpa using hx)]
      exact ih h

theorem lookupId_map_replace_eq (m : List FusedRecipeResult) (i : Int)
    (f : FusedRecipeResult → FusedRecipeResult)
    (hf : ∀ x, x.id = i → (f x).id = i) :
    lookupId (m.map (fun x => if x.id == i then f x else x)) i =
      Option.map f (lookupId m i) := by
  induction m with
  | nil => rfl
  | cons x t ih =>
    by_cases hx : (x.id == i) = true
    · have hfx : ((if x.id == i then f x else x).id == i) = true := by
        rw [if_pos hx]
        exact beq_iff_eq.mpr (hf x (beq_iff_eq.mp hx))
      rw [List.map_cons, lookupId_cons_pos _ _ i hfx, lookupId_cons_pos x t i hx,
        if_pos hx]
      simp
    · have hfx : ((if x.id == i then f x else x).id == i) = false := by
        rw [if_neg hx]
        simpa using hx
      rw [List.map_cons, lookupId_cons_neg _ _ i hfx,
        lookupId_cons_neg x t i (by simpa using hx)]
      exact ih

theorem lookupId_map_replace_ne (m : List FusedRecipeResult) (j i : Int)
    (hne : j ≠ i) (f : FusedRecipeResult → FusedRecipeResult)
    (hf : ∀ x, x.id = j → (f x).id = j) :
    lookupId (m.map (fun x => if x.id == j then f x else x)) i = lookupId m i := by
  induction m with
  | nil => rfl
  | cons x t ih =>
    by_cases hx : (x.id == j) = true
    · have hxi : (x.id == i) = false := by
        simp [beq_iff_eq.mp hx, hne]
      have hfxi : ((if x.id == j then f x else x).id == i) = false := by
        rw [if_pos hx]
        simp [hf x (beq_iff_eq.mp hx), hne]
      rw [List.map_cons, lookupId_cons_neg _ _ i hfxi, lookupId_cons_neg x t i hxi]
      exact ih
    · by_cases hxi : (x.id == i) = true
      · rw [List.map_cons, if_neg hx, lookupId_cons_pos x _ i hxi,
          lookupId_cons_pos x t i hxi]
      · rw [List.map_cons, if_neg hx, lookupId_cons_neg x _ i (by simpa using hxi),
          lookupId_cons_neg x t i (by simpa using hxi)]
        exact ih

theorem lookupId_upsertPG_self (m : List FusedRecipeResult) (r : PGRecipeResult) :
    lookupId (upsertPG m r) r.id = some (pgToFused r) := by
  unfold upsertPG
  split
  · next h =>
    rw [lookupId_map_replace_eq m r.id _ (fun x _ => by simp [pgToFused])]
    obtain ⟨e, he⟩ := lookupId_isSome_of_hasId h
    rw [he]
    rfl
  · next h =>
    rw [lookupId_append_of_none m _ r.id
      (lookupId_eq_none m r.id (by simpa using h))]
    exact lookupId_cons_pos _ _ _ (by simp [pgToFused])

theorem lookupId_beq {m : List FusedRecipeResult} {i : Int} {x : FusedRecipeResult}
    (h : lookupId m i = some x) : (x.id == i) = true := by
  have h' : List.find? (fun y => y.id == i) m = some x := h
  exact List.find?_some (p := fun y : FusedRecipeResult => y.id == i) h'

theorem lookupId_upsertPG_other (m : List FusedRecipeResult) (r : PGRecipeResult)
    (i : Int) (hne : r.id ≠ i) :
    lookupId (upsertPG m r) i = lookupId m i := by
  unfold upsertPG
  split
  · exact lookupId_map_replace_ne m r.id i hne _ (fun x _ => by simp [pgToFused])
  · cases hm : lookupId m i with
    | some e => exact lookupId_append_of_some m _ i e hm
    | none =>
      refine (lookupId_append_of_none m _ i hm).trans ?_
      rw [lookupId_cons_neg _ _ _ (by simp [pgToFused, hne])]
      rfl

theorem lookupId_applyKG_self (g : Int → Option PGRecipeResult)
    (m : List FusedRecipeResult) (k : KGRecipeResult) (e : FusedRecipeResult)
    (hm : lookupId m k.id = some e) :
    lookupId (applyKG g m k) k.id = some (boostKG e) := by
  have hhas : hasId m k.id = true :=
    (hasId_true_iff m k.id).mpr
      ⟨e, lookupId_mem hm, beq_iff_eq.mp (lookupId_beq hm)⟩
  unfold applyKG
  rw [if_pos hhas, lookupId_map_replace_eq m k.id boostKG (fun x hx => hx), hm]
  rfl

theorem lookupId_applyKG_other (g : Int → Option PGRecipeResult)
    (m : List FusedRecipeResult) (k : KGRecipeResult) (i : Int) (hki : k.id ≠ i)
    (hg : ∀ j r, g j = some r → r.id = j) :
    lookupId (applyKG g m k) i = lookupId m i := by
  unfold applyKG
  split
  · exact lookupId_map_replace_ne m k.id i hki boostKG (fun x hx => hx)
  · split
    · next full hfull =>
      cases hm : lookupId m i with
      | some e => exact lookupId_append_of_some m _ i e hm
      | none =>
        refine (lookupId_append_of_none m _ i hm).trans ?_
        rw [lookupId_cons_neg _ _ _ (by simp [kgToFused, hg _ _ hfull, hki])]
        rfl
    · rfl

theorem lookupId_foldl_applyKG_ne (g : Int → Option PGRecipeResult)
    (kl : List KGRecipeResult) (m : List FusedRecipeResult) (i : Int)
    (hne : ∀ k ∈ kl, k.id ≠ i) (hg : ∀ j r, g j = some r → r.id = j) :
    lookupId (kl.foldl (applyKG g) m) i = lookupId m i := by
  induction kl generalizing m with
  | nil => rfl
  | cons k t ih =>
    rw [List.foldl_cons, ih _ (fun k' hk' => hne k' (List.mem_cons_of_mem k hk')),
      lookupId_applyKG_other g m k i (hne k (List.mem_cons_self k t)) hg]

theorem lookupId_foldl_upsertPG_present (pg : List PGRecipeResult)
    (m : List FusedRecipeResult) (i : Int)
    (h : (∃ e, lookupId m i = some e) ∨ i ∈ pg.map (·.id)) :
    ∃ e, lookupId (pg.foldl upsertPG m) i = some e := by
  induction pg generalizing m with
  | nil =>
    rcases h with he | hmem
    · exact he
    · simp at hmem
  | cons r t ih =>
    rw [List.foldl_cons]
    apply ih
    rcases h with ⟨e, he⟩ | hmem
    · by_cases hri : r.id = i
      · exact Or.inl ⟨pgToFused r, hri ▸ lookupId_upsertPG_self m r⟩
      · exact Or.inl ⟨e, (lookupId_upsertPG_other m r i hri).trans he⟩
    · rcases List.mem_cons.mp (by simpa using hmem :
        i ∈ r.id :: t.map (·.id)) with hri | hti
      · exact Or.inl ⟨pgToFused r, hri ▸ lookupId_upsertPG_self m r⟩
      · exact Or.inr (by simpa using hti)

theorem map_id_replace (m : List FusedRecipeResult) (j : Int)
    (f : FusedRecipeResult → FusedRecipeResult)
    (hf : ∀ x, x.id = j → (f x).id = j) :
    (m.map (fun x => if x.id == j then f x else x)).map (·.id) = m.map (·.id) := by
  induction m with
  | nil => rfl
  | cons x t ih =>
    simp only [List.map_cons, ih]
    congr 1
    by_cases hx : (x.id == j) = true
    · rw [if_pos hx, hf x (beq_iff_eq.mp hx), beq_iff_eq.mp hx]
    · rw [if_neg hx]

theorem map_id_upsertPG_mem (m : List FusedRecipeResult) (r : PGRecipeResult)
    (h : hasId m r.id = true) :
    (upsertPG m r).map (·.id) = m.map (·.id) := by
  rw [upsertPG, if_pos h]
  exact map_id_replace m r.id _ (fun x _ => by simp [pgToFused])

theorem map_id_upsertPG_new (m : List FusedRecipeResult) (r : PGRecipeResult)
    (h : hasId m r.id = false) :
    (upsertPG m r).map (·.id) = m.map (·.id) ++ [r.id] := by
  rw [upsertPG, if_neg (by simp [h])]
  simp [pgToFused]

theorem map_id_applyKG_mem (g : Int → Option PGRecipeResult)
    (m : List FusedRecipeResult) (k : KGRecipeResult) (h : hasId m k.id = true) :
    (applyKG g m k).map (·.id) = m.map (·.id) := by
  rw [applyKG, if_pos h]
  exact map_id_replace m k.id boostKG (fun x hx => hx)

theorem map_id_applyKG_new (g : Int → Option PGRecipeResult)
    (m : List FusedRecipeResult) (k : KGRecipeResult) (h : hasId m k.id = false)
    (hg : ∀ j r, g j = some r → r.id = j) :
    (applyKG g m k).map (·.id) = m.map (·.id) ∨
    (applyKG g m k).map (·.id) = m.map (·.id) ++ [k.id] := by
  rw [applyKG, if_neg (by simp [h])]
  cases hj : g k.id with
  | none => exact Or.inl rfl
  | some full =>
    right
    simp [kgToFused, hg _ _ hj]

theorem nodup_ids_upsertPG (m : List FusedRecipeResult) (r : PGRecipeResult)
    (h : (m.map (·.id)).Nodup) : ((upsertPG m r).map (·.id)).Nodup := by
  cases hm : hasId m r.id with
  | false =>
    rw [map_id_upsertPG_new m r hm]
    simp only [List.nodup_append, List.nodup_cons]
    exact ⟨h, by simp, by simpa using (hasId_false_iff m r.id).mp hm⟩
  | true => rw [map_id_upsertPG_mem m r hm]; exact h

theorem nodup_ids_applyKG (g : Int → Option PGRecipeResult)
    (m : List FusedRecipeResult) (k : KGRecipeResult)
    (hg : ∀ j r, g j = some r → r.id = j)
    (h : (m.map (·.id)).Nodup) : ((applyKG g m k).map (·.id)).Nodup := by
  cases hm : hasId m k.id with
  | false =>
    rcases map_id_applyKG_new g m k hm hg with he | he <;> rw [he]
    · exact h
    · simp only [List.nodup_append, List.nodup_cons]
      exact ⟨h, by simp, by simpa using (hasId_false_iff m k.id).mp hm⟩
  | true => rw [map_id_applyKG_mem g m k hm]; exact h

theorem nodup_ids_fuseMap (g : Int → Option PGRecipeResult)
    (kg : List KGRecipeResult) (pg : List PGRecipeResult)
    (hg : ∀ j r, g j = some r → r.id = j) :
    ((fuseMap g kg pg).map (·.id)).Nodup := by
  unfold fuseMap
  have h1 : ∀ (l : List PGRecipeResult) (m : List FusedRecipeResult),
      (m.map (·.id)).Nodup → ((l.foldl upsertPG m).map (·.id)).Nodup := by
    intro l
    induction l with
    | nil => exact fun m hm => hm
    | cons r t ih => exact fun m hm => ih _ (nodup_ids_upsertPG m r hm)
  have h2 : ∀ (l : List KGRecipeResult) (m : List FusedRecipeResult),
      (m.map (·.id)).Nodup → ((l.foldl (applyKG g) m).map (·.id)).Nodup := by
    intro l
    induction l with
    | nil => exact fun m hm => hm
    | cons k t ih => exact fun m hm => ih _ (nodup_ids_applyKG g m k hg hm)
  exact h2 kg _ (h1 pg [] (by simp))

theorem insertScoreDesc_perm (r : FusedRecipeResult) (l : List FusedRecipeResult) :
    List.Perm (insertScoreDesc r l) (r :: l) := by
  induction l with
  | nil => exact List.Perm.refl _
  | cons x t ih =>
    unfold insertScoreDesc
    split
    · exact List.Perm.refl _
    · exact (ih.cons x).trans (List.Perm.swap r x t)

theorem sortByScoreDesc_perm (l : List FusedRecipeResult) :
    List.Perm (sortByScoreDesc l) l := by
  induction l with
  | nil => exact List.Perm.refl _
  | cons x t ih => exact (insertScoreDesc_perm x (sortByScoreDesc t)).trans (ih.cons x)

theorem mem_fuseResults_sub (g : Int → Option PGRecipeResult)
    (kg : List KGRecipeResult) (pg : List PGRecipeResult) (limit : Nat) :
    ∀ x ∈ fuseResults g kg pg limit, x ∈ fuseMap g kg pg := by
  intro x hx
  exact (sortByScoreDesc_perm (fuseMap g kg pg)).mem_iff.mp
    (List.take_subset _ _ hx)

theorem mem_upsertPG (m : List FusedRecipeResult) (r : PGRecipeResult)
    (x : FusedRecipeResult) (hx : x ∈ upsertPG m r) :
    x ∈ m ∨ x = pgToFused r := by
  unfold upsertPG at hx
  split at hx
  · rcases List.mem_map.mp hx with ⟨y, hy, he⟩
    by_cases hc : (y.id == r.id) = true
    · right; rw [← he, if_pos hc]
    · left
      rw [← he, if_neg hc]
      exact hy
  · rcases List.mem_append.mp hx with h | h
    · exact Or.inl h
    · right; simpa using h

theorem mem_foldl_upsertPG (pg : List PGRecipeResult) (m : List FusedRecipeResult)
    (x : FusedRecipeResult) (hx : x ∈ pg.foldl upsertPG m) :
    x ∈ m ∨ ∃ r ∈ pg, x = pgToFused r := by
  induction pg generalizing m with
  | nil => exact Or.inl hx
  | cons r t ih =>
    rcases ih (upsertPG m r) hx with h | ⟨r', hr', he⟩
    · rcases mem_upsertPG m r x h with h' | h'
      · exact Or.inl h'
      · exact Or.inr ⟨r, List.mem_cons_self r t, h'⟩
    · exact Or.inr ⟨r', List.mem_cons_of_mem r hr', he⟩

theorem mem_foldl_applyKG (P : FusedRecipeResult → Prop)
    (hb : ∀ x, P x → P (boostKG x))
    (hk : ∀ k full, P (kgToFused k full))
    (g : Int → Option PGRecipeResult) (kg : List KGRecipeResult) :
    ∀ (m : List FusedRecipeResult), (∀ x ∈ m, P x) →
      ∀ x ∈ kg.foldl (applyKG g) m, P x := by
  induction kg with
  | nil => exact fun m hm x hx => hm x hx
  | cons k t ih =>
    intro m hm x hx
    refine ih (applyKG g m k) ?_ x hx
    intro y hy
    unfold applyKG at hy
    split at hy
    · rcases List.mem_map.mp hy with ⟨z, hz, he⟩
      subst he
      split
      · exact hb z (hm z hz)
      · exact hm z hz
    · split at hy
      · next full hfull =>
        rcases List.mem_append.mp hy with h | h
        · exact hm y h
        · have h' : y = kgToFused k full := by simpa using h
          rw [h']
          exact hk k full
      · exact hm y hy

theorem goodSources_boostKG (x : FusedRecipeResult) (h : goodSources x) :
    goodSources (boostKG x) := by
  have hkg : ("kg" : String) ∉ storeTags := by decide
  rcases h with ⟨s, hs, he⟩ | ⟨s, hs, he⟩ | he
  · right; left
    refine ⟨s, hs, ?_⟩
    show (if "kg" ∈ x.sources then x.sources else x.sources ++ ["kg"]) = [s, "kg"]
    have hsne : ("kg" : String) ≠ s := fun hcon => hkg (by rw [hcon]; exact hs)
    rw [he, if_neg (by simp [hsne])]
    rfl
  · right; left
    refine ⟨s, hs, ?_⟩
    show (if "kg" ∈ x.sources then x.sources else x.sources ++ ["kg"]) = [s, "kg"]
    rw [he, if_pos (by simp)]
  · right; right
    show (if "kg" ∈ x.sources then x.sources else x.sources ++ ["kg"]) = ["kg"]
    rw [he, if_pos (by simp)]

theorem goodSources_fuseMap (g : Int → Option PGRecipeResult)
    (kg : List KGRecipeResult) (pg : List PGRecipeResult)
    (hpg : ∀ r ∈ pg, r.source ∈ storeTags) :
    ∀ x ∈ fuseMap g kg pg, goodSources x := by
  refine mem_foldl_applyKG goodSources goodSources_boostKG
    (fun k full => Or.inr (Or.inr rfl)) g kg _ ?_
  intro x hx
  rcases mem_foldl_upsertPG pg [] x hx with h | ⟨r, hr, he⟩
  · simp at h
  · rw [he]
    exact Or.inl ⟨r.source, hpg r hr, rfl⟩

theorem storeOrigin_boostKG (x : FusedRecipeResult) (h : storeOrigin x) :
    storeOrigin (boostKG x) := by
  rcases h with ⟨s, hs, he⟩
  refine ⟨s, hs, ?_⟩
  show (if "kg" ∈ x.sources then x.sources else x.sources ++ ["kg"]).head? = some s
  split
  · exact he
  · cases hx : x.sources with
    | nil => rw [hx] at he; cases he
    | cons a t =>
      rw [hx] at he
      simpa using he

theorem graphOnly_boostKG (x : FusedRecipeResult) (h : graphOnly x) :
    graphOnly (boostKG x) := by
  unfold graphOnly at h ⊢
  show (if "kg" ∈ x.sources then x.sources else x.sources ++ ["kg"]) = ["kg"]
  rw [h, if_pos (by simp : ("kg" : String) ∈ ["kg"])]

theorem storeOrigin_not_graphOnly (x : FusedRecipeResult) (h : storeOrigin x) :
    ¬graphOnly x := by
  rcases h with ⟨s, hs, he⟩
  intro hg
  unfold graphOnly at hg
  rw [hg] at he
  simp at he
  rw [← he] at hs
  revert hs
  decide

theorem splitSG_applyKG (g : Int → Option PGRecipeResult)
    (m : List FusedRecipeResult) (k : KGRecipeResult) (h : SplitSG m) :
    SplitSG (applyKG g m k) := by
  rcases h with ⟨mS, mG, rfl, hS, hG⟩
  unfold applyKG
  split
  · refine ⟨mS.map (fun x => if x.id == k.id then boostKG x else x),
      mG.map (fun x => if x.id == k.id then boostKG x else x),
      List.map_append _ mS mG, ?_, ?_⟩
    · intro x hx
      rcases List.mem_map.mp hx with ⟨y, hy, he⟩
      rw [← he]
      split
      · exact storeOrigin_boostKG y (hS y hy)
      · exact hS y hy
    · intro x hx
      rcases List.mem_map.mp hx with ⟨y, hy, he⟩
      rw [← he]
      split
      · exact graphOnly_boostKG y (hG y hy)
      · exact hG y hy
  · split
    · next full hfull =>
      refine ⟨mS, mG ++ [kgToFused k full], by rw [List.append_assoc], hS, ?_⟩
      intro x hx
      rcases List.mem_append.mp hx with h | h
      · exact hG x h
      · have h' : x = kgToFused k full := by simpa using h
        rw [h']
        rfl
    · exact ⟨mS, mG, rfl, hS, hG⟩

theorem splitSG_fuseMap (g : Int → Option PGRecipeResult)
    (kg : List KGRecipeResult) (pg : List PGRecipeResult)
    (hpg : ∀ r ∈ pg, r.source ∈ storeTags) :
    SplitSG (fuseMap g kg pg) := by
  unfold fuseMap
  have h0 : SplitSG (pg.foldl upsertPG []) := by
    refine ⟨pg.foldl upsertPG [], [], (List.append_nil _).symm, ?_, by simp⟩
    intro x hx
    rcases mem_foldl_upsertPG pg [] x hx with h | ⟨r, hr, he⟩
    · simp at h
    · rw [he]
      exact ⟨r.source, hpg r hr, rfl⟩
  have hfold : ∀ (kl : List KGRecipeResult) (m : List FusedRecipeResult),
      SplitSG m → SplitSG (kl.foldl (applyKG g) m) := by
    intro kl
    induction kl with
    | nil => exact fun m hm => hm
    | cons k t ih => exact fun m hm => ih _ (splitSG_applyKG g m k hm)
  exact hfold kg _ h0

theorem pairwise_noGBS_of_splitSG (m : List FusedRecipeResult) (h : SplitSG m) :
    m.Pairwise noGraphBeforeStore := by
  rcases h with ⟨mS, mG, rfl, hS, hG⟩
  rw [List.pairwise_append]
  refine ⟨List.pairwise_of_forall_mem_list ?_,
    List.pairwise_of_forall_mem_list ?_, ?_⟩
  · rintro a ha b hb ⟨hga, hsb⟩
    exact storeOrigin_not_graphOnly a (hS a ha) hga
  · rintro a ha b hb ⟨hga, hsb⟩
    exact storeOrigin_not_graphOnly b hsb (hG b hb)
  · rintro a ha b hb ⟨hga, hsb⟩
    exact storeOrigin_not_graphOnly a (hS a ha) hga

theorem mem_insertScoreDesc {z r : FusedRecipeResult} {l : List FusedRecipeResult}
    (h : z ∈ insertScoreDesc r l) : z = r ∨ z ∈ l :=
  List.mem_cons.mp ((insertScoreDesc_perm r l).mem_iff.mp h)

theorem pairwise_insertScoreDesc (r : FusedRecipeResult)
    (acc : List FusedRecipeResult)
    (hr : ∀ y ∈ acc, noGraphBeforeStore r y)
    (h : acc.Pairwise tieSeparated) :
    (insertScoreDesc r acc).Pairwise tieSeparated := by
  induction acc with
  | nil => simp [insertScoreDesc]
  | cons x t ih =>
    unfold insertScoreDesc
    split
    · refine List.Pairwise.cons ?_ h
      intro y hy hgr hsy
      exact absurd ⟨hgr, hsy⟩ (hr y hy)
    · next hlt =>
      have hx := List.pairwise_cons.mp h
      refine List.Pairwise.cons ?_
        (ih (fun y hy => hr y (List.mem_cons_of_mem x hy)) hx.2)
      intro z hz
      rcases mem_insertScoreDesc hz with rfl | hzt
      · intro _ _ hcon
        exact hlt (le_of_eq hcon)
      · exact hx.1 z hzt

theorem pairwise_sortByScoreDesc (l : List FusedRecipeResult)
    (h : l.Pairwise noGraphBeforeStore) :
    (sortByScoreDesc l).Pairwise tieSeparated := by
  induction l with
  | nil => simp [sortByScoreDesc]
  | cons x t ih =>
    have hc := List.pairwise_cons.mp h
    show (insertScoreDesc x (sortByScoreDesc t)).Pairwise tieSeparated
    exact pairwise_insertScoreDesc x _
      (fun y hy => hc.1 y ((sortByScoreDesc_perm t).mem_iff.mp hy))
      (ih hc.2)

theorem count_tags_of_goodSources (x : FusedRecipeResult) (h : goodSources x) :
    x.sources.count "kg" + x.sources.count "sql" + x.sources.count "vector" +
      x.sources.count "sql+vector" = x.sources.length ∧
    (x.sources.length = 1 ∨ x.sources.length = 2) := by
  rcases h with ⟨s, hs, he⟩ | ⟨s, hs, he⟩ | he
  · rcases (by simpa [storeTags] using hs :
      s = "sql" ∨ s = "vector" ∨ s = "sql+vector") with rfl | rfl | rfl <;>
      rw [he] <;> exact ⟨by decide, by decide⟩
  · rcases (by simpa [storeTags] using hs :
      s = "sql" ∨ s = "vector" ∨ s = "sql+vector") with rfl | rfl | rfl <;>
      rw [he] <;> exact ⟨by decide, by decide⟩
  · rw [he]
    exact ⟨by decide, by decide⟩

theorem breakdown_sum_cons (r : FusedRecipeResult) (t : List FusedRecipeResult) :
    ((sourceBreakdown (r :: t)).map (·.2)).sum =
      (r.sources.count "kg" + r.sources.count "sql" + r.sources.count "vector" +
        r.sources.count "sql+vector") + ((sourceBreakdown t).map (·.2)).sum := by
  simp [sourceBreakdown, countTag]
  omega

theorem breakdown_sum_eq (results : List FusedRecipeResult)
    (h : ∀ x ∈ results, goodSources x) :
    ((sourceBreakdown results).map (·.2)).sum =
      results.length +
        (results.filter (fun r => r.sources.length == 2)).length := by
  induction results with
  | nil => rfl
  | cons r t ih =>
    have hr := count_tags_of_goodSources r (h r (List.mem_cons_self r t))
    have ht := ih (fun x hx => h x (List.mem_cons_of_mem r hx))
    rw [breakdown_sum_cons, ht, hr.1]
    rcases hr.2 with h1 | h2
    · rw [List.filter_cons_of_neg (by simp [h1]), List.length_cons, h1]
      omega
    · rw [List.filter_cons_of_pos (by simp [h2]), List.length_cons,
        List.length_cons, h2]
      omega

/-! ### C1: fused score formula and the 0.82 scenario -/

/-- C1: for every store result processed by the merge step, the fused
`final_score` is `0.6 × vectorScore + 0.4 × ratingScore`, where the
vector score is `1/(1+distance)` when a distance is present and `0.5`
otherwise, and the rating score is `rating/5` when the rating is truthy
and `0.5` otherwise; in particular the spec scenario (one store row
with distance 0.2 and rating 4.0, no graph hit) fuses to
`finalScore = 0.6×(1/1.2) + 0.4×0.8 = 0.82` with
`sources = ["sql+vector"]`. -/
theorem fused_final_score_formula (r : PGRecipeResult) :
    ((pgToFused r).final_score =
      0.6 * (match r.distance with | some d => 1 / (1 + d) | none => (0.5 : ℚ)) +
      0.4 * (if r.rating ≠ 0 then r.rating / 5 else 0.5)) ∧
    ∃ out : FusedRecipeResult,
      fuseResults noById [] [storeRow7] 10 = [out] ∧
      out.final_score = 0.6 * (1 / 1.2) + 0.4 * 0.8 ∧
      out.final_score = 0.82 ∧
      out.sources = ["sql+vector"] := by
  constructor
  · rcases hr : r.distance with _ | d <;>
      simp [pgToFused, vector_score, rating_score, hr] <;> norm_num
  · refine ⟨pgToFused storeRow7, rfl, ?_, ?_, rfl⟩
    · norm_num [pgToFused, vector_score, rating_score, storeRow7]
    · norm_num [pgToFused, vector_score, rating_score, storeRow7]

/-! ### C3: a failing Knowledge-Graph call aborts the whole search -/

/-- C3 counterexample: with the Knowledge-Graph call failing and the
store path succeeding with one row, `search` returns the error — it
does not return a response carrying the store results.  (The Python
`search` has no `try`/`except`; the exception propagates.) -/
theorem kg_failure_aborts_search :
    search kgFailingRetrievers "spicy curry" kgHybridIntent 10 =
      Except.error RetrievalError.unavailable := rfl

/-- C3 amended: when the Graph Retriever's search call fails during a
search whose routing invokes it, the error propagates out of the whole
search call (no degradation of the graph path to an empty result set
happens, and no store results are returned). -/
theorem kg_failure_propagates {ε : Type} (R : Retrievers ε) (q : String)
    (intent : ParsedIntent) (limit : Nat) (e : ε)
    (hkg : kgInvoked intent = true)
    (herr : R.kgSearch intent (limit * 2) = .error e) :
    search R q intent limit = .error e := by
  simp [search, hkg, herr]

theorem kg_failure_propagates_witness :
    kgInvoked kgHybridIntent = true ∧
    search kgFailingRetrievers "vegetarian snack" kgHybridIntent 5 =
      Except.error RetrievalError.unavailable :=
  ⟨rfl, kg_failure_propagates kgFailingRetrievers "vegetarian snack" kgHybridIntent 5
    RetrievalError.unavailable rfl rfl⟩

/-! ### C4: default-hybrid fallback routing -/

/-- C4: for every intent with both store-path flags false, no semantic
query and no ingredients, the PostgreSQL dispatch of `search` still
selects the hybrid query shape (the default-hybrid fallback); `pgRoute`
is the total dispatch function of `search`, so exactly one store query
is issued on every search call and never zero. -/
theorem default_hybrid_routing (intent : ParsedIntent)
    (h1 : intent.use_sql = false) (h2 : intent.use_vector = false)
    (h3 : optStrTruthy intent.semantic_query = false)
    (h4 : optListTruthy intent.ingredients_include = false) :
    pgRoute intent = PGRoute.hybrid := by
  simp [pgRoute, h1, h2]

theorem default_hybrid_routing_witness :
    emptyIntent.use_sql = false ∧ emptyIntent.use_vector = false ∧
    pgRoute emptyIntent = PGRoute.hybrid :=
  ⟨rfl, rfl, default_hybrid_routing emptyIntent rfl rfl rfl rfl⟩

/-! ### C5: a non-empty ingredient allow-list always invokes the KG -/

/-- C5: for every intent whose `ingredients_include` list is non-empty,
the routing predicate of `search` invokes the Knowledge-Graph
retriever, regardless of the `use_kg` flag. -/
theorem ingredients_force_kg (intent : ParsedIntent) (l : List String)
    (h : intent.ingredients_include = some l) (hne : l ≠ []) :
    kgInvoked intent = true := by
  cases l with
  | nil => exact absurd rfl hne
  | cons a t => simp [kgInvoked, optListTruthy, h]

theorem ingredients_force_kg_witness :
    paneerIntent.use_kg = false ∧ kgInvoked paneerIntent = true :=
  ⟨rfl, ingredients_force_kg paneerIntent ["paneer"] rfl (by simp)⟩

/-! ### C10: a zero time ceiling is omitted from all three queries -/

/-- C10: for every intent whose `max_prep_time_mins` (resp.
`max_cook_time_mins`) equals 0, the corresponding time-ceiling
predicate is omitted from the filter-only store query, the hybrid store
query and the graph traversal query: each builder produces exactly the
clauses it would produce were the ceiling absent (`None`), so the
constructed queries impose no time restriction. -/
theorem zero_time_ceiling_omitted (intent : ParsedIntent) :
    (intent.max_prep_time_mins = some 0 →
      searchSqlConditions intent =
        searchSqlConditions { intent with max_prep_time_mins := none } ∧
      searchHybridConditions intent =
        searchHybridConditions { intent with max_prep_time_mins := none } ∧
      kgWhereClauses intent =
        kgWhereClauses { intent with max_prep_time_mins := none }) ∧
    (intent.max_cook_time_mins = some 0 →
      searchSqlConditions intent =
        searchSqlConditions { intent with max_cook_time_mins := none } ∧
      searchHybridConditions intent =
        searchHybridConditions { intent with max_cook_time_mins := none } ∧
      kgWhereClauses intent =
        kgWhereClauses { intent with max_cook_time_mins := none }) := by
  constructor <;> intro h <;>
    refine ⟨?_, ?_, ?_⟩ <;>
      simp [searchSqlConditions, searchHybridConditions, kgWhereClauses, h]

theorem zero_time_ceiling_omitted_witness :
    (searchSqlConditions zeroCeilingIntent =
      searchSqlConditions { zeroCeilingIntent with max_prep_time_mins := none } ∧
    searchHybridConditions zeroCeilingIntent =
      searchHybridConditions { zeroCeilingIntent with max_prep_time_mins := none } ∧
    kgWhereClauses zeroCeilingIntent =
      kgWhereClauses { zeroCeilingIntent with max_prep_time_mins := none }) ∧
    (searchSqlConditions zeroCeilingIntent =
      searchSqlConditions { zeroCeilingIntent with max_cook_time_mins := none } ∧
    searchHybridConditions zeroCeilingIntent =
      searchHybridConditions { zeroCeilingIntent with max_cook_time_mins := none } ∧
    kgWhereClauses zeroCeilingIntent =
      kgWhereClauses { zeroCeilingIntent with max_cook_time_mins := none }) :=
  ⟨(zero_time_ceiling_omitted zeroCeilingIntent).1 rfl,
   (zero_time_ceiling_omitted zeroCeilingIntent).2 rfl⟩

/-! ### C2: multiplicative 1.2 boost for ids found by both sources -/

/-- C2: for any id present both among the PostgreSQL results and among
the KG results handed to the merge step (whose ids the KG retriever
deduplicates via `RETURN DISTINCT`, hence the `Nodup` hypothesis), the
fused entry for that id is exactly the boost of the entry the store
results alone would have produced: its `final_score` is exactly `1.2 ×`
the store-derived score (a multiplicative boost, never additive), and
the `"kg"` tag occurs in its `sources` exactly once. -/
theorem graph_boost_law (g : Int → Option PGRecipeResult)
    (kg : List KGRecipeResult) (pg : List PGRecipeResult) (i : Int)
    (hg : ∀ j r, g j = some r → r.id = j)
    (hnd : (kg.map (·.id)).Nodup)
    (hik : i ∈ kg.map (·.id)) (hip : i ∈ pg.map (·.id)) :
    ∃ e₀, lookupId (fuseMap g [] pg) i = some e₀ ∧
      lookupId (fuseMap g kg pg) i = some (boostKG e₀) ∧
      (boostKG e₀).final_score = 1.2 * e₀.final_score ∧
      (boostKG e₀).sources.count "kg" = 1 := by
  obtain ⟨e₀, he₀⟩ := lookupId_foldl_upsertPG_present pg [] i (Or.inr hip)
  obtain ⟨k, hk, hki⟩ := List.mem_map.mp hik
  subst hki
  refine ⟨e₀, he₀, ?_, mul_comm _ _, ?_⟩
  · obtain ⟨kg₁, kg₂, rfl⟩ := List.append_of_mem hk
    rw [List.map_append, List.map_cons, List.nodup_append] at hnd
    have hiB : k.id ∉ kg₂.map (·.id) := (List.nodup_cons.mp hnd.2.1).1
    have hiA : k.id ∉ kg₁.map (·.id) := fun hin =>
      hnd.2.2 hin (List.mem_cons_self _ _)
    have h1 : ∀ k' ∈ kg₁, k'.id ≠ k.id := fun k' hk' he =>
      hiA (he ▸ List.mem_map_of_mem (·.id) hk')
    have h2 : ∀ k' ∈ kg₂, k'.id ≠ k.id := fun k' hk' he =>
      hiB (he ▸ List.mem_map_of_mem (·.id) hk')
    show lookupId ((kg₁ ++ k :: kg₂).foldl (applyKG g) (pg.foldl upsertPG [])) k.id =
      some (boostKG e₀)
    rw [List.foldl_append, List.foldl_cons,
      lookupId_foldl_applyKG_ne g kg₂ _ k.id h2 hg]
    refine lookupId_applyKG_self g _ k e₀ ?_
    rw [lookupId_foldl_applyKG_ne g kg₁ _ k.id h1 hg]
    exact he₀
  · have hmem := lookupId_mem he₀
    rcases mem_foldl_upsertPG pg [] e₀ hmem with hm0 | ⟨r, hr, he⟩
    · simp at hm0
    · show (if "kg" ∈ e₀.sources then e₀.sources else e₀.sources ++ ["kg"]).count "kg" = 1
      rw [he]
      show (if "kg" ∈ [r.source] then [r.source] else [r.source] ++ ["kg"]).count "kg" = 1
      by_cases hs : r.source = "kg"
      · rw [hs, if_pos (by simp)]
        decide
      · rw [if_neg (by simp [Ne.symm hs])]
        simp [List.count_cons, Ne.symm hs]

/-- A hydration lookup and input lists for the boost-law witness. -/
theorem graph_boost_law_witness :
    ∃ e₀, lookupId (fuseMap noById [] [storeRow7]) 7 = some e₀ ∧
      lookupId (fuseMap noById [kgRow7] [storeRow7]) 7 = some (boostKG e₀) ∧
      (boostKG e₀).final_score = 1.2 * e₀.final_score ∧
      (boostKG e₀).sources.count "kg" = 1 :=
  graph_boost_law noById [kgRow7] [storeRow7] 7
    (fun j r h => by cases h) (by decide) (by decide) (by decide)

/-! ### C6: stable sort — store-origin entries win exact ties -/

/-- C6: the merge step sorts by `final_score` descending with ties
broken by insertion order: in the fused output (whose store results all
carry a PostgreSQL provenance tag), whenever position `i` comes before
position `j` it never happens that the entry at `i` is graph-only, the
entry at `j` is store-origin, and their `final_score`s are exactly
equal — i.e. on an exact tie a store-origin entry (inserted first)
ranks before a graph-only entry (inserted later). -/
theorem tie_break_store_before_graph (g : Int → Option PGRecipeResult)
    (kg : List KGRecipeResult) (pg : List PGRecipeResult) (limit : Nat)
    (hpg : ∀ r ∈ pg, r.source ∈ storeTags)
    (d : FusedRecipeResult) (i j : Nat) (hij : i < j)
    (hj : j < (fuseResults g kg pg limit).length) :
    ¬(((fuseResults g kg pg limit).getD i d).final_score =
        ((fuseResults g kg pg limit).getD j d).final_score ∧
      graphOnly ((fuseResults g kg pg limit).getD i d) ∧
      storeOrigin ((fuseResults g kg pg limit).getD j d)) := by
  have hpw : (fuseResults g kg pg limit).Pairwise tieSeparated :=
    List.Pairwise.sublist (List.take_sublist _ _)
      (pairwise_sortByScoreDesc _
        (pairwise_noGBS_of_splitSG _ (splitSG_fuseMap g kg pg hpg)))
  rintro ⟨hs, hgi, hsj⟩
  have hi : i < (fuseResults g kg pg limit).length := lt_trans hij hj
  rw [List.getD_eq_getElem _ _ hi] at hs hgi
  rw [List.getD_eq_getElem _ _ hj] at hs hsj
  exact List.pairwise_iff_get.mp hpw ⟨i, hi⟩ ⟨j, hj⟩ hij hgi hsj hs

/-- Evaluates the tie scenario: the store row with neutral score 0.5
and a hydrated graph-only hit also scoring 0.5; the store entry stays
first in the sorted output. -/
theorem fuse_tie_eval :
    fuseResults byIdRow9 [kgRow9Unrated] [storeRow5] 10 =
      [pgToFused storeRow5, kgToFused kgRow9Unrated storeRow9] := by
  have hb : (kgToFused kgRow9Unrated storeRow9).final_score ≤
      (pgToFused storeRow5).final_score := by
    norm_num [kgToFused, pgToFused, vector_score, rating_score, storeRow5,
      storeRow9, kgRow9Unrated]
  show (insertScoreDesc (pgToFused storeRow5)
    [kgToFused kgRow9Unrated storeRow9]).take 10 = _
  simp only [insertScoreDesc]
  rw [if_pos hb]
  rfl

theorem tie_break_store_before_graph_witness :
    (∀ r ∈ [storeRow5], r.source ∈ storeTags) ∧
    ¬(((fuseResults byIdRow9 [kgRow9Unrated] [storeRow5] 10).getD 0
          (pgToFused storeRow5)).final_score =
        ((fuseResults byIdRow9 [kgRow9Unrated] [storeRow5] 10).getD 1
          (pgToFused storeRow5)).final_score ∧
      graphOnly ((fuseResults byIdRow9 [kgRow9Unrated] [storeRow5] 10).getD 0
        (pgToFused storeRow5)) ∧
      storeOrigin ((fuseResults byIdRow9 [kgRow9Unrated] [storeRow5] 10).getD 1
        (pgToFused storeRow5))) :=
  ⟨by decide,
   tie_break_store_before_graph byIdRow9 [kgRow9Unrated] [storeRow5] 10
     (by decide) (pgToFused storeRow5) 0 1 (by decide)
     (by rw [fuse_tie_eval]; decide)⟩

/-! ### C7: the fused output contains no duplicate ids -/

/-- C7: for every pair of store-result/graph-result input lists and
every limit (with the by-id hydration returning the row of the id it
was asked for, as `get_recipe_by_id`'s `WHERE id = %s` guarantees), the
fused output list contains no two entries with the same id. -/
theorem fused_ids_nodup (g : Int → Option PGRecipeResult)
    (kg : List KGRecipeResult) (pg : List PGRecipeResult) (limit : Nat)
    (hg : ∀ j r, g j = some r → r.id = j) :
    ((fuseResults g kg pg limit).map (·.id)).Nodup := by
  have h := nodup_ids_fuseMap g kg pg hg
  have hperm : List.Perm ((sortByScoreDesc (fuseMap g kg pg)).map (·.id))
      ((fuseMap g kg pg).map (·.id)) := (sortByScoreDesc_perm _).map _
  show (((sortByScoreDesc (fuseMap g kg pg)).take limit).map (·.id)).Nodup
  exact List.Nodup.sublist (List.Sublist.map _ (List.take_sublist limit _))
    (hperm.nodup_iff.mpr h)

/-- Every id `byIdRow9` answers for is the id it was asked for. -/
theorem byIdRow9_id : ∀ (j : Int) (r : PGRecipeResult),
    byIdRow9 j = some r → r.id = j := by
  intro j r h
  unfold byIdRow9 at h
  split at h
  · next hj =>
    cases h
    rw [beq_iff_eq.mp hj]
    rfl
  · cases h

theorem fused_ids_nodup_witness :
    (∀ j r, byIdRow9 j = some r → r.id = j) ∧
    ((fuseResults byIdRow9 [kgRow7, kgRow9] [storeRow7] 10).map (·.id)).Nodup :=
  ⟨byIdRow9_id,
   fused_ids_nodup byIdRow9 [kgRow7, kgRow9] [storeRow7] 10 byIdRow9_id⟩

/-! ### C8: cut law and source-breakdown accounting -/

/-- C8: for every search that returns a response (with the three
PostgreSQL query shapes tagging their rows with the store provenance
tags, as `pg_query.py` always does), the results list has length at
most the caller's limit, and the source-breakdown values — counted over
the final truncated list only — sum to the number of results plus
exactly the number of results carrying two source tags (so they sum to
the number of results exactly when every result has one tag). -/
theorem search_cut_law {ε : Type} (R : Retrievers ε) (q : String)
    (intent : ParsedIntent) (limit : Nat) (resp : SearchResponse)
    (hok : search R q intent limit = .ok resp)
    (hH : ∀ it n l, R.searchHybrid it n = .ok l → ∀ r ∈ l, r.source ∈ storeTags)
    (hV : ∀ s n l, R.searchVector s n = .ok l → ∀ r ∈ l, r.source ∈ storeTags)
    (hS : ∀ it n l, R.searchSql it n = .ok l → ∀ r ∈ l, r.source ∈ storeTags) :
    resp.results.length ≤ limit ∧
    (resp.source_breakdown.map (·.2)).sum =
      resp.results.length +
        (resp.results.filter (fun r => r.sources.length == 2)).length := by
  unfold search at hok
  split at hok
  · cases hok
  · next kg_results hkg =>
    split at hok
    · cases hok
    · next pg_results hpgq =>
      cases hok
      have hsrc : ∀ r ∈ pg_results, r.source ∈ storeTags := by
        cases hroute : pgRoute intent <;> rw [hroute] at hpgq
        · exact hH _ _ _ hpgq
        · exact hV _ _ _ hpgq
        · exact hS _ _ _ hpgq
      constructor
      · show ((sortByScoreDesc
          (fuseMap R.getById kg_results pg_results)).take limit).length ≤ limit
        rw [List.length_take]
        exact min_le_left _ _
      · exact breakdown_sum_eq _ (fun x hx =>
          goodSources_fuseMap R.getById kg_results pg_results hsrc x
            (mem_fuseResults_sub _ _ _ _ x hx))

theorem search_cut_law_witness :
    search okRetrievers "spicy curry" kgHybridIntent 10 = Except.ok okResp ∧
    okResp.results.length ≤ 10 ∧
    (okResp.source_breakdown.map (·.2)).sum =
      okResp.results.length +
        (okResp.results.filter (fun r => r.sources.length == 2)).length := by
  refine ⟨rfl, ?_⟩
  exact search_cut_law okRetrievers "spicy curry" kgHybridIntent 10 okResp rfl
    (by intro it n l h r hr
        cases h
        simp only [List.mem_singleton] at hr
        rw [hr]
        decide)
    (by intro s n l h r hr
        cases h
        simp at hr)
    (by intro it n l h r hr
        cases h
        simp at hr)

/-! ### C9: dangling graph hits are silently dropped -/

/-- Helper for C9: the PostgreSQL phase never creates an entry for an
id absent from the store results. -/
theorem not_mem_ids_foldl_upsertPG (pg : List PGRecipeResult)
    (m : List FusedRecipeResult) (i : Int)
    (hm : i ∉ m.map (·.id)) (hp : i ∉ pg.map (·.id)) :
    i ∉ (pg.foldl upsertPG m).map (·.id) := by
  induction pg generalizing m with
  | nil => exact hm
  | cons r t ih =>
    have hp' : i ∉ t.map (·.id) := fun h => hp (by simp [h])
    have hri : r.id ≠ i := fun h => hp (by simp [h])
    refine ih (upsertPG m r) ?_ hp'
    cases hc : hasId m r.id with
    | true => rw [map_id_upsertPG_mem m r hc]; exact hm
    | false =>
      rw [map_id_upsertPG_new m r hc]
      simp only [List.mem_append, List.mem_singleton]
      rintro (h | h)
      · exact hm h
      · exact hri h.symm

/-- C9: a graph hit whose id is absent from the store results and whose
by-id hydration returns not-found is silently dropped: the fused output
equals the output computed with that graph hit filtered away, the id
appears nowhere in the output, the source breakdown is unchanged, and
no error is surfaced (the merge is a total function). -/
theorem dangling_graph_hit_dropped (g : Int → Option PGRecipeResult)
    (kg : List KGRecipeResult) (pg : List PGRecipeResult) (limit : Nat) (i : Int)
    (hg : ∀ j r, g j = some r → r.id = j)
    (hip : i ∉ pg.map (·.id)) (hnone : g i = none) :
    fuseResults g kg pg limit =
      fuseResults g (kg.filter (fun k => k.id != i)) pg limit ∧
    i ∉ (fuseResults g kg pg limit).map (·.id) ∧
    sourceBreakdown (fuseResults g kg pg limit) =
      sourceBreakdown (fuseResults g (kg.filter (fun k => k.id != i)) pg limit) := by
  have hphase1 : i ∉ ((pg.foldl upsertPG []).map (·.id)) :=
    not_mem_ids_foldl_upsertPG pg [] i (by simp) hip
  have hmain : ∀ (kl : List KGRecipeResult) (m : List FusedRecipeResult),
      i ∉ m.map (·.id) →
      kl.foldl (applyKG g) m =
        (kl.filter (fun k => k.id != i)).foldl (applyKG g) m ∧
      i ∉ (kl.foldl (applyKG g) m).map (·.id) := by
    intro kl
    induction kl with
    | nil => exact fun m hm => ⟨rfl, hm⟩
    | cons k t ih =>
      intro m hm
      by_cases hki : k.id = i
      · have h1 : applyKG g m k = m := by
          unfold applyKG
          rw [if_neg (by simp [(hasId_false_iff m k.id).mpr (hki ▸ hm)]),
            hki, hnone]
        have h2 : (k :: t).filter (fun k => k.id != i) =
            t.filter (fun k => k.id != i) :=
          List.filter_cons_of_neg (by simp [hki])
        rw [List.foldl_cons, h1, h2]
        exact ih m hm
      · have h2 : (k :: t).filter (fun k => k.id != i) =
            k :: t.filter (fun k => k.id != i) :=
          List.filter_cons_of_pos (by simp [hki])
        rw [List.foldl_cons, h2, List.foldl_cons]
        apply ih
        cases hc : hasId m k.id with
        | true => rw [map_id_applyKG_mem g m k hc]; exact hm
        | false =>
          rcases map_id_applyKG_new g m k hc hg with he | he <;> rw [he]
          · exact hm
          · simp only [List.mem_append, List.mem_singleton]
            rintro (h | h)
            · exact hm h
            · exact hki h.symm
  obtain ⟨heq, hnm⟩ := hmain kg _ hphase1
  have hfr : fuseResults g kg pg limit =
      fuseResults g (kg.filter (fun k => k.id != i)) pg limit := by
    show (sortByScoreDesc (fuseMap g kg pg)).take limit =
      (sortByScoreDesc (fuseMap g (kg.filter (fun k => k.id != i)) pg)).take limit
    unfold fuseMap
    rw [heq]
  refine ⟨hfr, ?_, congrArg sourceBreakdown hfr⟩
  intro hmem
  apply hnm
  rcases List.mem_map.mp hmem with ⟨x, hx, hxi⟩
  exact hxi ▸ List.mem_map_of_mem (·.id) (mem_fuseResults_sub g kg pg limit x hx)

theorem dangling_graph_hit_dropped_witness :
    (byIdRow9 7 = none) ∧
    (fuseResults byIdRow9 [kgRow7, kgRow9Unrated] [storeRow5] 10 =
      fuseResults byIdRow9
        ([kgRow7, kgRow9Unrated].filter (fun k => k.id != 7)) [storeRow5] 10 ∧
    (7 : Int) ∉ (fuseResults byIdRow9 [kgRow7, kgRow9Unrated] [storeRow5] 10).map (·.id) ∧
    sourceBreakdown (fuseResults byIdRow9 [kgRow7, kgRow9Unrated] [storeRow5] 10) =
      sourceBreakdown (fuseResults byIdRow9
        ([kgRow7, kgRow9Unrated].filter (fun k => k.id != 7)) [storeRow5] 10)) :=
  ⟨rfl,
   dangling_graph_hit_dropped byIdRow9 [kgRow7, kgRow9Unrated] [storeRow5] 10 7
     byIdRow9_id (by decide) rfl⟩

end RecipeIdeator
